import Mathlib

/-!
Verification of the Market Ledger Engine of the confidential prediction
market repository.

The repository ships the contract's test suite (`src/test/PredictionMarket.ts`)
and its documentation, but the contract `contracts/PredictionMarket.sol` itself
is not among the provided sources.  The definitions below are therefore
modelled from the specification (spec.md, sections 3, 4 and 7), which gives the
full data model, the operations with their failure conditions in order, and the
numeric semantics; the observable behaviour (error conditions, check priority,
payout formula, claimed-before-transfer ordering) is cross-checked against the
test suite's assertions.

Amounts are wei-denominated natural numbers; participants and creators are
addresses modelled as natural numbers.  The per-market fields `paidOut` and
`emergencyOut` are ghost accumulators recording the value paid out by
`claimWinnings` and recovered by `emergencyWithdraw`; `balance` is the
market's escrowed value.  A value transfer out of escrow succeeds exactly
when the escrow balance covers it, and fails (`TransferFailed`) otherwise.
-/

/-- Error taxonomy of the Market Ledger Engine (spec section 7). -/
inductive MarketError where
  | InvalidArgument
  | NotFound
  | InvalidState
  | Unauthorized
  | AlreadyExists
  | AlreadyClaimed
  | NotAWinner
  | TransferFailed
deriving DecidableEq, Repr

/-- Modelled from the spec: the Market record (spec section 3), extended with
the escrow balance and two ghost accumulators used to state conservation. -/
structure Market where
  question : String
  creator : Nat
  createdAt : Nat
  endTime : Nat
  resolved : Bool
  outcome : Bool
  totalYesAmount : Nat
  totalNoAmount : Nat
  resolvedAt : Nat
  balance : Nat
  paidOut : Nat
  emergencyOut : Nat
deriving DecidableEq, Repr

/-- Modelled from the spec: a Bet record (spec section 3), keyed externally
by `(marketId, participant)`. -/
structure Bet where
  amount : Nat
  prediction : Bool
  claimed : Bool
deriving DecidableEq, Repr

/-- Modelled from the spec: the engine state: the market registry (position in
the list is the sequential market id) and the bet ledger as an association
list keyed by `(marketId, participant)`. -/
structure EngineState where
  markets : List Market
  bets : List ((Nat × Nat) × Bet)
deriving DecidableEq, Repr

/-- Modelled from the spec: minimum bet, 0.001 ether in wei. -/
def MIN_BET : Nat := 1000000000000000

/-- Modelled from the spec: maximum bet, 10 ether in wei. -/
def MAX_BET : Nat := 10000000000000000000

/-- Modelled from the spec: 30-day emergency timelock, in seconds. -/
def EMERGENCY_TIMELOCK : Nat := 2592000

/-- Empty engine state: no markets, no bets. -/
def initState : EngineState := ⟨[], []⟩

/-- Lookup of the bet of `(marketId, participant)` in the bet ledger. -/
def lookupBet : List ((Nat × Nat) × Bet) → Nat → Nat → Option Bet
  | [], _, _ => none
  | (k, b) :: rest, m, p => if k = (m, p) then some b else lookupBet rest m p

/-- Marking the bet of `(marketId, participant)` claimed, leaving every other
entry unchanged. -/
def markClaimed : List ((Nat × Nat) × Bet) → Nat → Nat → List ((Nat × Nat) × Bet)
  | [], _, _ => []
  | (k, b) :: rest, m, p =>
    if k = (m, p) then (k, { b with claimed := true }) :: markClaimed rest m p
    else (k, b) :: markClaimed rest m p

/-- Modelled from the spec: `getTotalMarkets` (spec section 4.1), the count of
markets ever created. -/
def getTotalMarkets (s : EngineState) : Nat := s.markets.length

/-- Modelled from the spec: `getMarket` (spec section 4.1), failing with
`NotFound` when the id exceeds the number of created markets. -/
def getMarket (s : EngineState) (id : Nat) : Except MarketError Market :=
  match s.markets[id]? with
  | none => .error .NotFound
  | some mk => .ok mk

/-- Modelled from the spec: `getBet` (spec section 4.2, named `getBetExists` in
the test suite): never fails, returns `(exists, claimed)`. -/
def getBetExists (s : EngineState) (marketId participant : Nat) : Bool × Bool :=
  match lookupBet s.bets marketId participant with
  | none => (false, false)
  | some b => (true, b.claimed)

/-- Modelled from the spec: `createMarket` (spec section 4.1): fails with
`InvalidArgument` on an empty question or non-positive duration; otherwise
appends a fresh market (the next sequential id) with `resolved = false`,
zero pool totals and `endTime = now + duration`. -/
def createMarket (s : EngineState) (now caller : Nat) (question : String)
    (duration : Nat) : Except MarketError EngineState :=
  if question = "" ∨ duration = 0 then .error .InvalidArgument
  else .ok { s with
    markets := s.markets ++ [{
      question := question
      creator := caller
      createdAt := now
      endTime := now + duration
      resolved := false
      outcome := false
      totalYesAmount := 0
      totalNoAmount := 0
      resolvedAt := 0
      balance := 0
      paidOut := 0
      emergencyOut := 0 }] }

/-- Modelled from the spec: `placeBet` (spec section 4.2), with the failure
checks in the spec's order: `NotFound` (missing market), `InvalidState`
(market ended or already resolved), `InvalidArgument` (amount out of
`[MIN_BET, MAX_BET]`), `AlreadyExists` (duplicate bet).  On success the bet is
recorded with `claimed = false`, the amount is added to the predicted side's
pool total and to the market's escrow balance. -/
def placeBet (s : EngineState) (now marketId participant : Nat)
    (prediction : Bool) (amount : Nat) : Except MarketError EngineState :=
  match s.markets[marketId]? with
  | none => .error .NotFound
  | some mk =>
    if mk.endTime ≤ now ∨ mk.resolved = true then .error .InvalidState
    else if amount < MIN_BET ∨ MAX_BET < amount then .error .InvalidArgument
    else if (lookupBet s.bets marketId participant).isSome then .error .AlreadyExists
    else .ok {
      markets := s.markets.set marketId { mk with
        totalYesAmount := if prediction then mk.totalYesAmount + amount else mk.totalYesAmount
        totalNoAmount := if prediction then mk.totalNoAmount else mk.totalNoAmount + amount
        balance := mk.balance + amount }
      bets := ((marketId, participant), ⟨amount, prediction, false⟩) :: s.bets }

/-- Modelled from the spec: `resolveMarket` (spec section 4.3), with checks in
the spec's order: `NotFound`, `Unauthorized` (caller is not the creator),
`InvalidState` (market still active, or already resolved).  On success sets
`resolved = true`, records the outcome and the resolution time. -/
def resolveMarket (s : EngineState) (now marketId : Nat) (outcome : Bool)
    (caller : Nat) : Except MarketError EngineState :=
  match s.markets[marketId]? with
  | none => .error .NotFound
  | some mk =>
    if caller ≠ mk.creator then .error .Unauthorized
    else if now < mk.endTime ∨ mk.resolved = true then .error .InvalidState
    else .ok { s with
      markets := s.markets.set marketId { mk with
        resolved := true
        outcome := outcome
        resolvedAt := now } }

/-- Modelled from the spec: `claimWinnings` (spec section 4.4), with checks in
the spec's order: `NotFound` (no bet), `InvalidState` (not resolved),
`AlreadyClaimed`, `NotAWinner`.  For a winner the payout is
`amount * (totalYesAmount + totalNoAmount) / winningSideTotal` with truncating
integer division; the bet is marked claimed strictly before the value transfer
is attempted, and a failing transfer (`TransferFailed`, when the escrow balance
does not cover the payout) leaves the claimed flag set.  Returns the resulting
state together with the payout or the error. -/
def claimWinnings (s : EngineState) (marketId participant : Nat) :
    EngineState × Except MarketError Nat :=
  match lookupBet s.bets marketId participant with
  | none => (s, .error .NotFound)
  | some bet =>
    match s.markets[marketId]? with
    | none => (s, .error .NotFound)
    | some mk =>
      if mk.resolved = false then (s, .error .InvalidState)
      else if bet.claimed = true then (s, .error .AlreadyClaimed)
      else if bet.prediction ≠ mk.outcome then (s, .error .NotAWinner)
      else
        let winningSideTotal := if mk.outcome then mk.totalYesAmount else mk.totalNoAmount
        let payout := bet.amount * (mk.totalYesAmount + mk.totalNoAmount) / winningSideTotal
        let s1 : EngineState := { s with bets := markClaimed s.bets marketId participant }
        if payout ≤ mk.balance then
          ({ s1 with markets := s1.markets.set marketId { mk with
              balance := mk.balance - payout
              paidOut := mk.paidOut + payout } }, .ok payout)
        else (s1, .error .TransferFailed)

/-- Modelled from the spec: `emergencyWithdraw` (spec section 4.5), with checks
in the spec's order: `NotFound`, `Unauthorized` (caller is not the creator),
`InvalidState` (market not resolved, or the 30-day timelock since resolution
has not elapsed).  On success transfers the remaining escrow balance to the
creator. -/
def emergencyWithdraw (s : EngineState) (now marketId caller : Nat) :
    Except MarketError EngineState :=
  match s.markets[marketId]? with
  | none => .error .NotFound
  | some mk =>
    if caller ≠ mk.creator then .error .Unauthorized
    else if mk.resolved = false ∨ now < mk.resolvedAt + EMERGENCY_TIMELOCK then
      .error .InvalidState
    else .ok { s with
      markets := s.markets.set marketId { mk with
        balance := 0
        emergencyOut := mk.emergencyOut + mk.balance } }

/-- Requests against the engine: each constructor carries the caller (or
participant) and the arguments of the corresponding operation. -/
inductive Act where
  | create (caller : Nat) (question : String) (duration : Nat)
  | bet (participant marketId : Nat) (prediction : Bool) (amount : Nat)
  | resolve (caller marketId : Nat) (outcome : Bool)
  | claim (participant marketId : Nat)
  | withdraw (caller marketId : Nat)
deriving DecidableEq, Repr

/-- One serialized transaction: the operation runs atomically at the given
time; a failed operation leaves the state unchanged, except for the
documented `claimWinnings` partial effect (the claimed flag survives a failing
transfer, spec sections 4.4 and 7). -/
def step (s : EngineState) : Nat × Act → EngineState
  | (now, .create c q d) =>
    match createMarket s now c q d with
    | .ok s' => s'
    | .error _ => s
  | (now, .bet p m pred amt) =>
    match placeBet s now m p pred amt with
    | .ok s' => s'
    | .error _ => s
  | (now, .resolve c m oc) =>
    match resolveMarket s now m oc c with
    | .ok s' => s'
    | .error _ => s
  | (_, .claim p m) => (claimWinnings s m p).1
  | (now, .withdraw c m) =>
    match emergencyWithdraw s now m c with
    | .ok s' => s'
    | .error _ => s

/-- Running a list of timestamped transactions from a state. -/
def run (s : EngineState) (tr : List (Nat × Act)) : EngineState :=
  tr.foldl step s

/-- Fields of a market that every operation preserves: identity and schedule
are immutable, and once resolved the outcome and resolution time are frozen. -/
def preservesMarket (mk mk' : Market) : Prop :=
  mk'.question = mk.question ∧ mk'.creator = mk.creator ∧
  mk'.createdAt = mk.createdAt ∧ mk'.endTime = mk.endTime ∧
  (mk.resolved = true →
    mk'.resolved = true ∧ mk'.outcome = mk.outcome ∧ mk'.resolvedAt = mk.resolvedAt)

/-- Fields of a bet that every operation preserves: stake and side are
immutable, and the claimed flag is monotone. -/
def preservesBet (b b' : Bet) : Prop :=
  b'.amount = b.amount ∧ b'.prediction = b.prediction ∧
  (b.claimed = true → b'.claimed = true)

/-- Conservation accounting for one market: everything ever paid out by
`claimWinnings`, plus everything recovered by `emergencyWithdraw`, plus the
remaining escrow balance, equals the sum of all bet amounts placed (the pool
totals are written only by `placeBet`, which adds each bet's amount exactly
once). -/
def ConsInv (s : EngineState) : Prop :=
  ∀ (m : Nat) (mk : Market), s.markets[m]? = some mk →
    mk.paidOut + mk.emergencyOut + mk.balance = mk.totalYesAmount + mk.totalNoAmount

/-- Market-open test used to phrase when a second bet attempt reaches the
duplicate check: the market exists, is not past its end time and is not
resolved. -/
def marketOpenAt (s : EngineState) (now m : Nat) : Bool :=
  match s.markets[m]? with
  | none => false
  | some mk => decide (now < mk.endTime) && !mk.resolved

/-- Bet-amount bounds test (spec section 4.2). -/
def amountInBounds (amt : Nat) : Bool :=
  decide (MIN_BET ≤ amt ∧ amt ≤ MAX_BET)

/-- Resolved flag of a market, when the market exists. -/
def resolvedOf (s : EngineState) (m : Nat) : Option Bool :=
  (s.markets[m]?).map (fun mk => mk.resolved)

/-- Outcome of a market, when the market exists. -/
def outcomeOf (s : EngineState) (m : Nat) : Option Bool :=
  (s.markets[m]?).map (fun mk => mk.outcome)

/-- Concrete scenario: creator 7 opens market 0 with a one-hundred-second
window. -/
def trOpen : List (Nat × Act) := [(0, .create 7 "q" 100)]

/-- Concrete scenario: participants 1 (yes) and 2 (no) each stake `MIN_BET`. -/
def trBets : List (Nat × Act) :=
  trOpen ++ [(1, .bet 1 0 true MIN_BET), (2, .bet 2 0 false MIN_BET)]

/-- Concrete scenario: the creator resolves market 0 to yes at time 100. -/
def trResolved : List (Nat × Act) := trBets ++ [(100, .resolve 7 0 true)]

/-- Concrete scenario: winner 1 claims after resolution. -/
def trClaimed : List (Nat × Act) := trResolved ++ [(101, .claim 1 0)]

/-- Market 0 after `trResolved`. -/
def mkResolvedC : Market :=
  ⟨"q", 7, 0, 100, true, true, MIN_BET, MIN_BET, 100, 2 * MIN_BET, 0, 0⟩

/-- Market 0 after `trClaimed`: the whole pool was paid to the winner. -/
def mkClaimedC : Market :=
  ⟨"q", 7, 0, 100, true, true, MIN_BET, MIN_BET, 100, 0, 2 * MIN_BET, 0⟩

/-- Market 0 after `trOpen`. -/
def mkOpenC : Market := ⟨"q", 7, 0, 100, false, false, 0, 0, 0, 0, 0, 0⟩

theorem preservesMarket_rfl (mk : Market) : preservesMarket mk mk :=
  ⟨rfl, rfl, rfl, rfl, fun h => ⟨h, rfl, rfl⟩⟩

theorem preservesMarket_trans {a b c : Market}
    (h1 : preservesMarket a b) (h2 : preservesMarket b c) : preservesMarket a c := by
  obtain ⟨q1, c1, t1, e1, r1⟩ := h1
  obtain ⟨q2, c2, t2, e2, r2⟩ := h2
  refine ⟨q2.trans q1, c2.trans c1, t2.trans t1, e2.trans e1, fun hr => ?_⟩
  obtain ⟨hb, ho, ha⟩ := r1 hr
  obtain ⟨hb', ho', ha'⟩ := r2 hb
  exact ⟨hb', ho'.trans ho, ha'.trans ha⟩

theorem preservesBet_rfl (b : Bet) : preservesBet b b :=
  ⟨rfl, rfl, fun h => h⟩

theorem preservesBet_trans {a b c : Bet}
    (h1 : preservesBet a b) (h2 : preservesBet b c) : preservesBet a c := by
  obtain ⟨a1, p1, c1⟩ := h1
  obtain ⟨a2, p2, c2⟩ := h2
  exact ⟨a2.trans a1, p2.trans p1, fun h => c2 (c1 h)⟩

theorem lookupBet_markClaimed_self (l : List ((Nat × Nat) × Bet)) (m p : Nat) :
    lookupBet (markClaimed l m p) m p
      = (lookupBet l m p).map (fun b => { b with claimed := true }) := by
  induction l with
  | nil => rfl
  | cons hd tl ih =>
    obtain ⟨k, b⟩ := hd
    by_cases hk : k = (m, p)
    · simp [markClaimed, lookupBet, hk]
    · simp [markClaimed, lookupBet, hk, ih]

theorem lookupBet_markClaimed_ne (l : List ((Nat × Nat) × Bet)) (m p m' p' : Nat)
    (h : (m', p') ≠ (m, p)) :
    lookupBet (markClaimed l m p) m' p' = lookupBet l m' p' := by
  induction l with
  | nil => rfl
  | cons hd tl ih =>
    obtain ⟨k, b⟩ := hd
    have hcond : ¬(m = m' ∧ p = p') := by
      rintro ⟨rfl, rfl⟩
      exact h rfl
    by_cases hk : k = (m, p)
    · subst hk
      simp [markClaimed, lookupBet, ih, hcond]
    · by_cases hk' : k = (m', p')
      · subst hk'
        have hcond2 : ¬(m' = m ∧ p' = p) := by
          rintro ⟨rfl, rfl⟩
          exact h rfl
        simp [markClaimed, lookupBet, hcond2]
      · simp [markClaimed, lookupBet, hk, hk', ih]

theorem step_market_persist (s : EngineState) (ta : Nat × Act) (m : Nat) (mk : Market)
    (h : s.markets[m]? = some mk) :
    ∃ mk', (step s ta).markets[m]? = some mk' ∧ preservesMarket mk mk' := by
  have hlt : m < s.markets.length := (List.getElem?_eq_some.mp h).1
  have base : ∃ mk', s.markets[m]? = some mk' ∧ preservesMarket mk mk' :=
    ⟨mk, h, preservesMarket_rfl mk⟩
  obtain ⟨now, act⟩ := ta
  cases act with
  | create c q d =>
    by_cases hqd : q = "" ∨ d = 0
    · simp only [step, createMarket, if_pos hqd]
      exact base
    · simp only [step, createMarket, if_neg hqd]
      exact ⟨mk, by rw [List.getElem?_append_left hlt]; exact h, preservesMarket_rfl mk⟩
  | bet p0 m0 pred amt =>
    rcases hg : s.markets[m0]? with _ | mk0
    · simp only [step, placeBet, hg]
      exact base
    · by_cases h1 : mk0.endTime ≤ now ∨ mk0.resolved = true
      · simp only [step, placeBet, hg, if_pos h1]
        exact base
      · by_cases h2 : amt < MIN_BET ∨ MAX_BET < amt
        · simp only [step, placeBet, hg, if_neg h1, if_pos h2]
          exact base
        · by_cases h3 : (lookupBet s.bets m0 p0).isSome = true
          · simp only [step, placeBet, hg, if_neg h1, if_neg h2, if_pos h3]
            exact base
          · simp only [step, placeBet, hg, if_neg h1, if_neg h2, if_neg h3]
            by_cases hm : m0 = m
            · subst hm
              have hmk : mk0 = mk := by rw [hg] at h; exact Option.some.inj h
              subst hmk
              rw [List.getElem?_set_eq_of_lt _ hlt]
              exact ⟨_, rfl, rfl, rfl, rfl, rfl, fun hr => ⟨hr, rfl, rfl⟩⟩
            · rw [List.getElem?_set_ne hm]
              exact base
  | resolve c m0 oc =>
    rcases hg : s.markets[m0]? with _ | mk0
    · simp only [step, resolveMarket, hg]
      exact base
    · by_cases h1 : c ≠ mk0.creator
      · simp only [step, resolveMarket, hg, if_pos h1]
        exact base
      · by_cases h2 : now < mk0.endTime ∨ mk0.resolved = true
        · simp only [step, resolveMarket, hg, if_neg h1, if_pos h2]
          exact base
        · simp only [step, resolveMarket, hg, if_neg h1, if_neg h2]
          by_cases hm : m0 = m
          · subst hm
            have hmk : mk0 = mk := by rw [hg] at h; exact Option.some.inj h
            subst hmk
            have hres : mk0.resolved = false := by
              rcases Bool.eq_false_or_eq_true mk0.resolved with hb | hb
              · exact absurd (Or.inr hb) h2
              · exact hb
            rw [List.getElem?_set_eq_of_lt _ hlt]
            exact ⟨_, rfl, rfl, rfl, rfl, rfl, fun hr => absurd hr (by rw [hres]; exact Bool.false_ne_true)⟩
          · rw [List.getElem?_set_ne hm]
            exact base
  | claim p0 m0 =>
    rcases hb : lookupBet s.bets m0 p0 with _ | bet0
    · simp only [step, claimWinnings, hb]
      exact base
    · rcases hg : s.markets[m0]? with _ | mk0
      · simp only [step, claimWinnings, hb, hg]
        exact base
      · by_cases h1 : mk0.resolved = false
        · simp only [step, claimWinnings, hb, hg, if_pos h1]
          exact base
        · by_cases h2 : bet0.claimed = true
          · simp only [step, claimWinnings, hb, hg, if_neg h1, if_pos h2]
            exact base
          · by_cases h3 : bet0.prediction ≠ mk0.outcome
            · simp only [step, claimWinnings, hb, hg, if_neg h1, if_neg h2, if_pos h3]
              exact base
            · by_cases h4 : bet0.amount * (mk0.totalYesAmount + mk0.totalNoAmount) /
                  (if mk0.outcome then mk0.totalYesAmount else mk0.totalNoAmount) ≤ mk0.balance
              · simp only [step, claimWinnings, hb, hg, if_neg h1, if_neg h2, if_neg h3,
                  if_pos h4]
                by_cases hm : m0 = m
                · subst hm
                  have hmk : mk0 = mk := by rw [hg] at h; exact Option.some.inj h
                  subst hmk
                  rw [List.getElem?_set_eq_of_lt _ hlt]
                  exact ⟨_, rfl, rfl, rfl, rfl, rfl, fun hr => ⟨hr, rfl, rfl⟩⟩
                · rw [List.getElem?_set_ne hm]
                  exact base
              · simp only [step, claimWinnings, hb, hg, if_neg h1, if_neg h2, if_neg h3,
                  if_neg h4]
                exact base
  | withdraw c m0 =>
    rcases hg : s.markets[m0]? with _ | mk0
    · simp only [step, emergencyWithdraw, hg]
      exact base
    · by_cases h1 : c ≠ mk0.creator
      · simp only [step, emergencyWithdraw, hg, if_pos h1]
        exact base
      · by_cases h2 : mk0.resolved = false ∨ now < mk0.resolvedAt + EMERGENCY_TIMELOCK
        · simp only [step, emergencyWithdraw, hg, if_neg h1, if_pos h2]
          exact base
        · simp only [step, emergencyWithdraw, hg, if_neg h1, if_neg h2]
          by_cases hm : m0 = m
          · subst hm
            have hmk : mk0 = mk := by rw [hg] at h; exact Option.some.inj h
            subst hmk
            rw [List.getElem?_set_eq_of_lt _ hlt]
            exact ⟨_, rfl, rfl, rfl, rfl, rfl, fun hr => ⟨hr, rfl, rfl⟩⟩
          · rw [List.getElem?_set_ne hm]
            exact base

theorem step_bet_persist (s : EngineState) (ta : Nat × Act) (m p : Nat) (b : Bet)
    (h : lookupBet s.bets m p = some b) :
    ∃ b', lookupBet (step s ta).bets m p = some b' ∧ preservesBet b b' := by
  have base : ∃ b', lookupBet s.bets m p = some b' ∧ preservesBet b b' :=
    ⟨b, h, preservesBet_rfl b⟩
  obtain ⟨now, act⟩ := ta
  cases act with
  | create c q d =>
    by_cases hqd : q = "" ∨ d = 0
    · simp only [step, createMarket, if_pos hqd]
      exact base
    · simp only [step, createMarket, if_neg hqd]
      exact base
  | bet p0 m0 pred amt =>
    rcases hg : s.markets[m0]? with _ | mk0
    · simp only [step, placeBet, hg]
      exact base
    · by_cases h1 : mk0.endTime ≤ now ∨ mk0.resolved = true
      · simp only [step, placeBet, hg, if_pos h1]
        exact base
      · by_cases h2 : amt < MIN_BET ∨ MAX_BET < amt
        · simp only [step, placeBet, hg, if_neg h1, if_pos h2]
          exact base
        · by_cases h3 : (lookupBet s.bets m0 p0).isSome = true
          · simp only [step, placeBet, hg, if_neg h1, if_neg h2, if_pos h3]
            exact base
          · simp only [step, placeBet, hg, if_neg h1, if_neg h2, if_neg h3]
            have hk : (m0, p0) ≠ (m, p) := by
              rintro hkk
              rw [show m0 = m from congrArg Prod.fst hkk,
                show p0 = p from congrArg Prod.snd hkk, h] at h3
              exact h3 rfl
            refine ⟨b, ?_, preservesBet_rfl b⟩
            simpa [lookupBet, hk] using h
  | resolve c m0 oc =>
    rcases hg : s.markets[m0]? with _ | mk0
    · simp only [step, resolveMarket, hg]
      exact base
    · by_cases h1 : c ≠ mk0.creator
      · simp only [step, resolveMarket, hg, if_pos h1]
        exact base
      · by_cases h2 : now < mk0.endTime ∨ mk0.resolved = true
        · simp only [step, resolveMarket, hg, if_pos h2, if_neg h1]
          exact base
        · simp only [step, resolveMarket, hg, if_neg h1, if_neg h2]
          exact base
  | claim p0 m0 =>
    have hmark : ∃ b', lookupBet (markClaimed s.bets m0 p0) m p = some b' ∧ preservesBet b b' := by
      by_cases hk : (m, p) = (m0, p0)
      · rw [show m = m0 from congrArg Prod.fst hk, show p = p0 from congrArg Prod.snd hk] at h ⊢
        rw [lookupBet_markClaimed_self, h]
        exact ⟨_, rfl, rfl, rfl, fun _ => rfl⟩
      · rw [lookupBet_markClaimed_ne s.bets m0 p0 m p hk, h]
        exact ⟨b, rfl, preservesBet_rfl b⟩
    rcases hb : lookupBet s.bets m0 p0 with _ | bet0
    · simp only [step, claimWinnings, hb]
      exact base
    · rcases hg : s.markets[m0]? with _ | mk0
      · simp only [step, claimWinnings, hb, hg]
        exact base
      · by_cases h1 : mk0.resolved = false
        · simp only [step, claimWinnings, hb, hg, if_pos h1]
          exact base
        · by_cases h2 : bet0.claimed = true
          · simp only [step, claimWinnings, hb, hg, if_neg h1, if_pos h2]
            exact base
          · by_cases h3 : bet0.prediction ≠ mk0.outcome
            · simp only [step, claimWinnings, hb, hg, if_neg h1, if_neg h2, if_pos h3]
              exact base
            · by_cases h4 : bet0.amount * (mk0.totalYesAmount + mk0.totalNoAmount) /
                  (if mk0.outcome then mk0.totalYesAmount else mk0.totalNoAmount) ≤ mk0.balance
              · simp only [step, claimWinnings, hb, hg, if_neg h1, if_neg h2, if_neg h3,
                  if_pos h4]
                exact hmark
              · simp only [step, claimWinnings, hb, hg, if_neg h1, if_neg h2, if_neg h3,
                  if_neg h4]
                exact hmark
  | withdraw c m0 =>
    rcases hg : s.markets[m0]? with _ | mk0
    · simp only [step, emergencyWithdraw, hg]
      exact base
    · by_cases h1 : c ≠ mk0.creator
      · simp only [step, emergencyWithdraw, hg, if_pos h1]
        exact base
      · by_cases h2 : mk0.resolved = false ∨ now < mk0.resolvedAt + EMERGENCY_TIMELOCK
        · simp only [step, emergencyWithdraw, hg, if_pos h2, if_neg h1]
          exact base
        · simp only [step, emergencyWithdraw, hg, if_neg h1, if_neg h2]
          exact base

theorem run_market_persist (tr : List (Nat × Act)) (s : EngineState) (m : Nat)
    (mk : Market) (h : s.markets[m]? = some mk) :
    ∃ mk', (run s tr).markets[m]? = some mk' ∧ preservesMarket mk mk' := by
  induction tr generalizing s mk with
  | nil => exact ⟨mk, h, preservesMarket_rfl mk⟩
  | cons ta tl ih =>
    obtain ⟨mk1, h1, hp1⟩ := step_market_persist s ta m mk h
    obtain ⟨mk2, h2, hp2⟩ := ih (step s ta) mk1 h1
    exact ⟨mk2, h2, preservesMarket_trans hp1 hp2⟩

theorem run_bet_persist (tr : List (Nat × Act)) (s : EngineState) (m p : Nat)
    (b : Bet) (h : lookupBet s.bets m p = some b) :
    ∃ b', lookupBet (run s tr).bets m p = some b' ∧ preservesBet b b' := by
  induction tr generalizing s b with
  | nil => exact ⟨b, h, preservesBet_rfl b⟩
  | cons ta tl ih =>
    obtain ⟨b1, h1, hp1⟩ := step_bet_persist s ta m p b h
    obtain ⟨b2, h2, hp2⟩ := ih (step s ta) b1 h1
    exact ⟨b2, h2, preservesBet_trans hp1 hp2⟩

theorem consInv_init : ConsInv initState := by
  unfold ConsInv
  intro m mk h
  simp [initState] at h

theorem consInv_step (s : EngineState) (ta : Nat × Act) (hs : ConsInv s) :
    ConsInv (step s ta) := by
  unfold ConsInv at hs ⊢
  obtain ⟨now, act⟩ := ta
  cases act with
  | create c q d =>
    by_cases hqd : q = "" ∨ d = 0
    · simpa only [step, createMarket, if_pos hqd] using hs
    · intro m mk h
      simp only [step, createMarket, if_neg hqd] at h
      by_cases hlt : m < s.markets.length
      · rw [List.getElem?_append_left hlt] at h
        exact hs m mk h
      · rw [List.getElem?_append_right (Nat.le_of_not_lt hlt)] at h
        rcases hz : m - s.markets.length with _ | k
        · rw [hz] at h
          simp only [List.getElem?_cons_zero, Option.some.injEq] at h
          subst h
          rfl
        · rw [hz] at h
          simp at h
  | bet p0 m0 pred amt =>
    rcases hg : s.markets[m0]? with _ | mk0
    · simpa only [step, placeBet, hg] using hs
    · have hlt0 : m0 < s.markets.length := (List.getElem?_eq_some.mp hg).1
      by_cases h1 : mk0.endTime ≤ now ∨ mk0.resolved = true
      · simpa only [step, placeBet, hg, if_pos h1] using hs
      · by_cases h2 : amt < MIN_BET ∨ MAX_BET < amt
        · simpa only [step, placeBet, hg, if_neg h1, if_pos h2] using hs
        · by_cases h3 : (lookupBet s.bets m0 p0).isSome = true
          · simpa only [step, placeBet, hg, if_neg h1, if_neg h2, if_pos h3] using hs
          · intro m mk h
            simp only [step, placeBet, hg, if_neg h1, if_neg h2, if_neg h3] at h
            by_cases hm : m0 = m
            · subst hm
              rw [List.getElem?_set_eq_of_lt _ hlt0, Option.some.injEq] at h
              subst h
              have hold := hs m0 mk0 hg
              cases pred
              · simp only [Bool.false_eq_true, if_false]
                omega
              · simp only [if_true]
                omega
            · rw [List.getElem?_set_ne hm] at h
              exact hs m mk h
  | resolve c m0 oc =>
    rcases hg : s.markets[m0]? with _ | mk0
    · simpa only [step, resolveMarket, hg] using hs
    · have hlt0 : m0 < s.markets.length := (List.getElem?_eq_some.mp hg).1
      by_cases h1 : c ≠ mk0.creator
      · simpa only [step, resolveMarket, hg, if_pos h1] using hs
      · by_cases h2 : now < mk0.endTime ∨ mk0.resolved = true
        · simpa only [step, resolveMarket, hg, if_pos h2, if_neg h1] using hs
        · intro m mk h
          simp only [step, resolveMarket, hg, if_neg h1, if_neg h2] at h
          by_cases hm : m0 = m
          · subst hm
            rw [List.getElem?_set_eq_of_lt _ hlt0, Option.some.injEq] at h
            subst h
            exact hs m0 mk0 hg
          · rw [List.getElem?_set_ne hm] at h
            exact hs m mk h
  | claim p0 m0 =>
    rcases hb : lookupBet s.bets m0 p0 with _ | bet0
    · simpa only [step, claimWinnings, hb] using hs
    · rcases hg : s.markets[m0]? with _ | mk0
      · simpa only [step, claimWinnings, hb, hg] using hs
      · have hlt0 : m0 < s.markets.length := (List.getElem?_eq_some.mp hg).1
        by_cases h1 : mk0.resolved = false
        · simpa only [step, claimWinnings, hb, hg, if_pos h1] using hs
        · by_cases h2 : bet0.claimed = true
          · simpa only [step, claimWinnings, hb, hg, if_neg h1, if_pos h2] using hs
          · by_cases h3 : bet0.prediction ≠ mk0.outcome
            · simpa only [step, claimWinnings, hb, hg, if_neg h1, if_neg h2, if_pos h3] using hs
            · by_cases h4 : bet0.amount * (mk0.totalYesAmount + mk0.totalNoAmount) /
                  (if mk0.outcome then mk0.totalYesAmount else mk0.totalNoAmount) ≤ mk0.balance
              · intro m mk h
                simp only [step, claimWinnings, hb, hg, if_neg h1, if_neg h2, if_neg h3,
                  if_pos h4] at h
                by_cases hm : m0 = m
                · subst hm
                  rw [List.getElem?_set_eq_of_lt _ hlt0, Option.some.injEq] at h
                  subst h
                  have hold := hs m0 mk0 hg
                  dsimp only
                  omega
                · rw [List.getElem?_set_ne hm] at h
                  exact hs m mk h
              · simpa only [step, claimWinnings, hb, hg, if_neg h1, if_neg h2, if_neg h3,
                  if_neg h4] using hs
  | withdraw c m0 =>
    rcases hg : s.markets[m0]? with _ | mk0
    · simpa only [step, emergencyWithdraw, hg] using hs
    · have hlt0 : m0 < s.markets.length := (List.getElem?_eq_some.mp hg).1
      by_cases h1 : c ≠ mk0.creator
      · simpa only [step, emergencyWithdraw, hg, if_pos h1] using hs
      · by_cases h2 : mk0.resolved = false ∨ now < mk0.resolvedAt + EMERGENCY_TIMELOCK
        · simpa only [step, emergencyWithdraw, hg, if_pos h2, if_neg h1] using hs
        · intro m mk h
          simp only [step, emergencyWithdraw, hg, if_neg h1, if_neg h2] at h
          by_cases hm : m0 = m
          · subst hm
            rw [List.getElem?_set_eq_of_lt _ hlt0, Option.some.injEq] at h
            subst h
            have hold := hs m0 mk0 hg
            dsimp only
            omega
          · rw [List.getElem?_set_ne hm] at h
            exact hs m mk h

theorem consInv_run (tr : List (Nat × Act)) : ConsInv (run initState tr) := by
  have haux : ∀ (tl : List (Nat × Act)) (s : EngineState), ConsInv s → ConsInv (run s tl) := by
    intro tl
    induction tl with
    | nil => exact fun s hs => hs
    | cons ta tl2 ih => exact fun s hs => ih (step s ta) (consInv_step s ta hs)
  exact haux tr initState consInv_init

/-- C1: for every market of any state reachable from the empty engine, the sum
of all payouts made by `claimWinnings` (the ghost accumulator `paidOut`) plus
any balance transferred out by `emergencyWithdraw` (the ghost accumulator
`emergencyOut`) never exceeds the sum of all bet amounts placed on that market
(the pool totals, which only `placeBet` ever increases, by each recorded bet's
amount). -/
theorem C1_conservation (tr : List (Nat × Act)) (m : Nat) (mk : Market)
    (h : (run initState tr).markets[m]? = some mk) :
    mk.paidOut + mk.emergencyOut ≤ mk.totalYesAmount + mk.totalNoAmount := by
  have hc := consInv_run tr m mk h
  omega

/-- Witness for C1: the concrete create/bet/bet/resolve/claim scenario, in
which the whole pool was paid to the winner and nothing was over-paid. -/
theorem C1_conservation_witness :
    (run initState trClaimed).markets[0]? = some mkClaimedC ∧
      mkClaimedC.paidOut + mkClaimedC.emergencyOut ≤
        mkClaimedC.totalYesAmount + mkClaimedC.totalNoAmount :=
  ⟨by decide, C1_conservation trClaimed 0 mkClaimedC (by decide)⟩

theorem claimWinnings_already (s : EngineState) (m p : Nat) (mk : Market) (b : Bet)
    (hg : s.markets[m]? = some mk) (hb : lookupBet s.bets m p = some b)
    (hres : mk.resolved = true) (hcl : b.claimed = true) :
    claimWinnings s m p = (s, .error .AlreadyClaimed) := by
  simp only [claimWinnings, hb, hg, hres, hcl]
  simp

theorem claimWinnings_after (s : EngineState) (m p : Nat)
    (h : (claimWinnings s m p).2.isOk = true ∨
      (claimWinnings s m p).2 = .error .TransferFailed) :
    ∃ (mk1 : Market) (b1 : Bet),
      (claimWinnings s m p).1.markets[m]? = some mk1 ∧ mk1.resolved = true ∧
      lookupBet (claimWinnings s m p).1.bets m p = some b1 ∧ b1.claimed = true := by
  rcases hb : lookupBet s.bets m p with _ | bet0
  · exfalso
    simp only [claimWinnings, hb] at h
    rcases h with h | h <;> simp [Except.isOk, Except.toBool] at h
  · rcases hg : s.markets[m]? with _ | mk0
    · exfalso
      simp only [claimWinnings, hb, hg] at h
      rcases h with h | h <;> simp [Except.isOk, Except.toBool] at h
    · have hlt0 : m < s.markets.length := (List.getElem?_eq_some.mp hg).1
      by_cases h1 : mk0.resolved = false
      · exfalso
        simp only [claimWinnings, hb, hg, if_pos h1] at h
        rcases h with h | h <;> simp [Except.isOk, Except.toBool] at h
      · by_cases h2 : bet0.claimed = true
        · exfalso
          simp only [claimWinnings, hb, hg, if_neg h1, if_pos h2] at h
          rcases h with h | h <;> simp [Except.isOk, Except.toBool] at h
        · by_cases h3 : bet0.prediction ≠ mk0.outcome
          · exfalso
            simp only [claimWinnings, hb, hg, if_neg h1, if_neg h2, if_pos h3] at h
            rcases h with h | h <;> simp [Except.isOk, Except.toBool] at h
          · have hres : mk0.resolved = true := by
              rcases Bool.eq_false_or_eq_true mk0.resolved with hbb | hbb
              · exact hbb
              · exact absurd hbb h1
            have hlook : lookupBet (markClaimed s.bets m p) m p
                = some { bet0 with claimed := true } := by
              rw [lookupBet_markClaimed_self, hb]
              rfl
            by_cases h4 : bet0.amount * (mk0.totalYesAmount + mk0.totalNoAmount) /
                (if mk0.outcome then mk0.totalYesAmount else mk0.totalNoAmount) ≤ mk0.balance
            · simp only [claimWinnings, hb, hg, if_neg h1, if_neg h2, if_neg h3, if_pos h4]
              exact ⟨_, _, List.getElem?_set_eq_of_lt _ hlt0, hres, hlook, rfl⟩
            · simp only [claimWinnings, hb, hg, if_neg h1, if_neg h2, if_neg h3, if_neg h4]
              exact ⟨mk0, { bet0 with claimed := true }, rfl, hres, hlook, rfl⟩

/-- C2: whenever a `claimWinnings` attempt reaches the value transfer (it
either succeeds or fails only in the transfer itself), the bet is marked
claimed in the resulting state — the flag is set strictly before the external
transfer, so even a failing transfer leaves it set — and every subsequent
`claimWinnings` call for the same `(marketId, participant)`, after any further
transactions whatsoever, fails with `AlreadyClaimed`; hence `claimWinnings`
succeeds at most once per bet. -/
theorem C2_single_claim (s : EngineState) (m p : Nat) (tr : List (Nat × Act))
    (h : (claimWinnings s m p).2.isOk = true ∨
      (claimWinnings s m p).2 = .error .TransferFailed) :
    getBetExists (claimWinnings s m p).1 m p = (true, true) ∧
    (claimWinnings (run (claimWinnings s m p).1 tr) m p).2 = .error .AlreadyClaimed := by
  obtain ⟨mk1, b1, hg1, hres1, hb1, hcl1⟩ := claimWinnings_after s m p h
  constructor
  · simp [getBetExists, hb1, hcl1]
  · obtain ⟨mk2, hg2, hpm⟩ := run_market_persist tr _ m mk1 hg1
    obtain ⟨b2, hb2, hpb⟩ := run_bet_persist tr _ m p b1 hb1
    have hres2 : mk2.resolved = true := (hpm.2.2.2.2 hres1).1
    have hcl2 : b2.claimed = true := hpb.2.2 hcl1
    rw [claimWinnings_already _ m p mk2 b2 hg2 hb2 hres2 hcl2]

/-- Witness for C2: winner 1 claims on the resolved concrete market; after a
further (failing) claim attempt by participant 2, a repeat claim by 1 fails
with `AlreadyClaimed`. -/
theorem C2_single_claim_witness :
    ((claimWinnings (run initState trResolved) 0 1).2.isOk = true ∨
      (claimWinnings (run initState trResolved) 0 1).2 = .error .TransferFailed) ∧
    (getBetExists (claimWinnings (run initState trResolved) 0 1).1 0 1 = (true, true) ∧
      (claimWinnings (run (claimWinnings (run initState trResolved) 0 1).1
        [(102, .claim 2 0)]) 0 1).2 = .error .AlreadyClaimed) :=
  ⟨Or.inl rfl,
    C2_single_claim (run initState trResolved) 0 1 [(102, .claim 2 0)] (Or.inl rfl)⟩

theorem placeBet_ok (s : EngineState) (now m p : Nat) (pred : Bool) (amt : Nat)
    (s1 : EngineState) (h : placeBet s now m p pred amt = .ok s1) :
    ∃ mk0, s.markets[m]? = some mk0 ∧
      lookupBet s.bets m p = none ∧
      ¬(mk0.endTime ≤ now ∨ mk0.resolved = true) ∧
      ¬(amt < MIN_BET ∨ MAX_BET < amt) ∧
      s1 = { markets := s.markets.set m { mk0 with
                totalYesAmount := if pred then mk0.totalYesAmount + amt else mk0.totalYesAmount
                totalNoAmount := if pred then mk0.totalNoAmount else mk0.totalNoAmount + amt
                balance := mk0.balance + amt },
             bets := ((m, p), ⟨amt, pred, false⟩) :: s.bets } := by
  rcases hg : s.markets[m]? with _ | mk0
  · simp only [placeBet, hg] at h
    cases h
  · by_cases h1 : mk0.endTime ≤ now ∨ mk0.resolved = true
    · simp only [placeBet, hg, if_pos h1] at h
      cases h
    · by_cases h2 : amt < MIN_BET ∨ MAX_BET < amt
      · simp only [placeBet, hg, if_neg h1, if_pos h2] at h
        cases h
      · by_cases h3 : (lookupBet s.bets m p).isSome = true
        · simp only [placeBet, hg, if_neg h1, if_neg h2, if_pos h3] at h
          cases h
        · simp only [placeBet, hg, if_neg h1, if_neg h2, if_neg h3, Except.ok.injEq] at h
          exact ⟨mk0, rfl, Option.not_isSome_iff_eq_none.mp h3, h1, h2, h.symm⟩

theorem resolveMarket_ok (s : EngineState) (now m : Nat) (oc : Bool) (c : Nat)
    (s1 : EngineState) (h : resolveMarket s now m oc c = .ok s1) :
    ∃ mk0, s.markets[m]? = some mk0 ∧ c = mk0.creator ∧
      mk0.resolved = false ∧ mk0.endTime ≤ now ∧
      s1 = { s with markets := s.markets.set m { mk0 with
          resolved := true, outcome := oc, resolvedAt := now } } := by
  rcases hg : s.markets[m]? with _ | mk0
  · simp only [resolveMarket, hg] at h
    cases h
  · by_cases h1 : c ≠ mk0.creator
    · simp only [resolveMarket, hg, if_pos h1] at h
      cases h
    · by_cases h2 : now < mk0.endTime ∨ mk0.resolved = true
      · simp only [resolveMarket, hg, if_neg h1, if_pos h2] at h
        cases h
      · simp only [resolveMarket, hg, if_neg h1, if_neg h2, Except.ok.injEq] at h
        refine ⟨mk0, rfl, not_not.mp h1, ?_, ?_, h.symm⟩
        · rcases Bool.eq_false_or_eq_true mk0.resolved with hbb | hbb
          · exact absurd (Or.inr hbb) h2
          · exact hbb
        · by_cases hlt : now < mk0.endTime
          · exact absurd (Or.inl hlt) h2
          · exact Nat.le_of_not_lt hlt

/-- C3 counterexample: the claim as stated is false.  On the concrete engine
state where participant 1 already holds a bet on open market 0, a second
`placeBet` attempt by the same participant with amount 0 (below `MIN_BET`)
fails with `InvalidArgument`, not `AlreadyExists`: the amount bounds are
checked before the duplicate-bet check, so the error kind is not independent
of the second attempt's amount. -/
theorem C3_counterexample :
    getBetExists (run initState trBets) 0 1 = (true, false) ∧
    placeBet (run initState trBets) 3 0 1 false 0 = .error .InvalidArgument ∧
    MarketError.InvalidArgument ≠ MarketError.AlreadyExists :=
  ⟨by decide, rfl, by decide⟩

/-- C3 (amended): after a successful `placeBet` for `(marketId, participant)`,
no later `placeBet` for the same pair ever succeeds, whatever the prediction,
amount, time, or intervening transactions; and the failure is `AlreadyExists`
whenever the second attempt passes the checks that precede the duplicate check
(the market is still open and the amount is within `[MIN_BET, MAX_BET]`),
regardless of the prediction. -/
theorem C3_unique_bet (s : EngineState) (now m p : Nat) (pred : Bool) (amt : Nat)
    (s1 : EngineState) (tr : List (Nat × Act)) (now2 : Nat) (pred2 : Bool) (amt2 : Nat)
    (h : placeBet s now m p pred amt = .ok s1) :
    (placeBet (run s1 tr) now2 m p pred2 amt2).isOk = false ∧
    (marketOpenAt (run s1 tr) now2 m = true → amountInBounds amt2 = true →
      placeBet (run s1 tr) now2 m p pred2 amt2 = .error .AlreadyExists) := by
  obtain ⟨mk0, hg0, hnone, hc1, hc2, hs1⟩ := placeBet_ok s now m p pred amt s1 h
  have hb1 : lookupBet s1.bets m p = some ⟨amt, pred, false⟩ := by
    rw [hs1]
    simp [lookupBet]
  obtain ⟨b2, hb2, hpb⟩ := run_bet_persist tr s1 m p _ hb1
  have hsome : (lookupBet (run s1 tr).bets m p).isSome = true := by
    rw [hb2]
    rfl
  constructor
  · rcases hg2 : (run s1 tr).markets[m]? with _ | mk2
    · simp [placeBet, hg2, Except.isOk, Except.toBool]
    · by_cases c1 : mk2.endTime ≤ now2 ∨ mk2.resolved = true
      · simp [placeBet, hg2, if_pos c1, Except.isOk, Except.toBool]
      · by_cases c2 : amt2 < MIN_BET ∨ MAX_BET < amt2
        · simp [placeBet, hg2, if_neg c1, if_pos c2, Except.isOk, Except.toBool]
        · simp [placeBet, hg2, if_neg c1, if_neg c2, hsome, Except.isOk, Except.toBool]
  · intro hopen hbounds
    unfold marketOpenAt at hopen
    rcases hg2 : (run s1 tr).markets[m]? with _ | mk2
    · rw [hg2] at hopen
      cases hopen
    · rw [hg2] at hopen
      have hcond : now2 < mk2.endTime ∧ mk2.resolved = false := by
        rcases Bool.and_eq_true_iff.mp hopen with ⟨hx, hy⟩
        exact ⟨of_decide_eq_true hx, by simpa using hy⟩
      have c1 : ¬(mk2.endTime ≤ now2 ∨ mk2.resolved = true) := by
        rintro (hh | hh)
        · omega
        · rw [hcond.2] at hh
          cases hh
      have c2 : ¬(amt2 < MIN_BET ∨ MAX_BET < amt2) := by
        unfold amountInBounds at hbounds
        have := of_decide_eq_true hbounds
        omega
      simp [placeBet, hg2, if_neg c1, if_neg c2, hsome]

/-- Witness for C3 (amended): participant 1 bets on open market 0; an
immediate second attempt with the opposite prediction and a valid amount
fails with `AlreadyExists`. -/
theorem C3_unique_bet_witness :
    placeBet (run initState trOpen) 1 0 1 true MIN_BET
        = .ok (run initState (trOpen ++ [(1, Act.bet 1 0 true MIN_BET)])) ∧
    ((placeBet (run (run initState (trOpen ++ [(1, Act.bet 1 0 true MIN_BET)])) [])
        2 0 1 false MIN_BET).isOk = false ∧
      (marketOpenAt (run (run initState (trOpen ++ [(1, Act.bet 1 0 true MIN_BET)])) [])
          2 0 = true →
        amountInBounds MIN_BET = true →
        placeBet (run (run initState (trOpen ++ [(1, Act.bet 1 0 true MIN_BET)])) [])
          2 0 1 false MIN_BET = .error .AlreadyExists)) :=
  ⟨rfl, C3_unique_bet (run initState trOpen) 1 0 1 true MIN_BET
    (run initState (trOpen ++ [(1, Act.bet 1 0 true MIN_BET)])) [] 2 false MIN_BET rfl⟩

/-- C6: a successful `placeBet` on an open market records the bet with the
given amount and prediction and `claimed = false` (so `getBetExists` reports
`(true, false)`), adds the amount to `totalYesAmount` when the prediction is
yes and otherwise to `totalNoAmount`, leaves the other side's total unchanged,
and adds the amount to the market's escrow balance. -/
theorem C6_place_bet (s : EngineState) (now m p : Nat) (pred : Bool) (amt : Nat)
    (mk : Market) (s1 : EngineState)
    (hm : s.markets[m]? = some mk)
    (h : placeBet s now m p pred amt = .ok s1) :
    lookupBet s1.bets m p = some ⟨amt, pred, false⟩ ∧
    getBetExists s1 m p = (true, false) ∧
    s1.markets[m]? = some { mk with
        totalYesAmount := if pred then mk.totalYesAmount + amt else mk.totalYesAmount
        totalNoAmount := if pred then mk.totalNoAmount else mk.totalNoAmount + amt
        balance := mk.balance + amt } := by
  obtain ⟨mk0, hg0, hnone, hc1, hc2, hs1⟩ := placeBet_ok s now m p pred amt s1 h
  have hmk : mk0 = mk := by
    rw [hm] at hg0
    exact (Option.some.inj hg0).symm
  subst hmk
  subst hs1
  have hlt : m < s.markets.length := (List.getElem?_eq_some.mp hm).1
  refine ⟨?_, ?_, ?_⟩
  · simp [lookupBet]
  · simp [getBetExists, lookupBet]
  · exact List.getElem?_set_eq_of_lt _ hlt

/-- Witness for C6: participant 1 stakes `MIN_BET` on yes on the freshly
created market 0. -/
theorem C6_place_bet_witness :
    ((run initState trOpen).markets[0]? = some mkOpenC ∧
      placeBet (run initState trOpen) 1 0 1 true MIN_BET
        = .ok (run initState (trOpen ++ [(1, Act.bet 1 0 true MIN_BET)]))) ∧
    (lookupBet (run initState (trOpen ++ [(1, Act.bet 1 0 true MIN_BET)])).bets 0 1
        = some ⟨MIN_BET, true, false⟩ ∧
      getBetExists (run initState (trOpen ++ [(1, Act.bet 1 0 true MIN_BET)])) 0 1
        = (true, false) ∧
      (run initState (trOpen ++ [(1, Act.bet 1 0 true MIN_BET)])).markets[0]?
        = some { mkOpenC with
            totalYesAmount := if true then mkOpenC.totalYesAmount + MIN_BET else mkOpenC.totalYesAmount
            totalNoAmount := if true then mkOpenC.totalNoAmount else mkOpenC.totalNoAmount + MIN_BET
            balance := mkOpenC.balance + MIN_BET }) :=
  ⟨⟨by decide, rfl⟩,
    C6_place_bet (run initState trOpen) 1 0 1 true MIN_BET mkOpenC
      (run initState (trOpen ++ [(1, Act.bet 1 0 true MIN_BET)])) (by decide) rfl⟩

/-- C4 counterexample: the claim as stated is false.  On the concrete resolved
market 0 (creator 7), a subsequent `resolveMarket` call by caller 1 fails with
`Unauthorized`, not `InvalidState`: the authorization check precedes the
already-resolved check (spec section 4.3 order; the test suite likewise
expects the creator-only error for non-creator callers irrespective of
lifecycle state). -/
theorem C4_counterexample :
    (run initState trResolved).markets[0]? = some mkResolvedC ∧
    mkResolvedC.resolved = true ∧
    resolveMarket (run initState trResolved) 200 0 false 1 = .error .Unauthorized ∧
    MarketError.Unauthorized ≠ MarketError.InvalidState :=
  ⟨by decide, rfl, rfl, by decide⟩

/-- C4 (amended): `resolved` transitions false to true at most once and never
back.  After a successful `resolveMarket` (which requires `resolved = false`)
and any further transactions whatsoever, the market still reports
`resolved = true` with the originally recorded outcome, and every subsequent
`resolveMarket` call fails — with `InvalidState` when made by the creator,
with `Unauthorized` otherwise — leaving the state unchanged. -/
theorem C4_monotone_resolution (s : EngineState) (now m : Nat) (oc : Bool) (c : Nat)
    (s1 : EngineState) (tr : List (Nat × Act)) (now2 : Nat) (oc2 : Bool) (c2 : Nat)
    (h : resolveMarket s now m oc c = .ok s1) :
    resolvedOf (run s1 tr) m = some true ∧
    outcomeOf (run s1 tr) m = some oc ∧
    resolveMarket (run s1 tr) now2 m oc2 c2
      = .error (if c2 = c then .InvalidState else .Unauthorized) ∧
    step (run s1 tr) (now2, .resolve c2 m oc2) = run s1 tr := by
  obtain ⟨mk0, hg0, hcreator, hres0, hend0, hs1⟩ := resolveMarket_ok s now m oc c s1 h
  have hlt : m < s.markets.length := (List.getElem?_eq_some.mp hg0).1
  have hg1 : s1.markets[m]?
      = some { mk0 with resolved := true, outcome := oc, resolvedAt := now } := by
    rw [hs1]
    exact List.getElem?_set_eq_of_lt _ hlt
  obtain ⟨mk2, hg2, hpm⟩ := run_market_persist tr s1 m _ hg1
  obtain ⟨hres2, hoc2, _⟩ := hpm.2.2.2.2 rfl
  have hcr2 : mk2.creator = c := by
    rw [hpm.2.1]
    exact hcreator.symm
  have herr : resolveMarket (run s1 tr) now2 m oc2 c2
      = .error (if c2 = c then .InvalidState else .Unauthorized) := by
    by_cases hc2 : c2 = c
    · have hauth : ¬(c2 ≠ mk2.creator) := by
        rw [hcr2]
        exact not_not.mpr hc2
      simp only [resolveMarket, hg2, if_neg hauth, if_pos (Or.inr hres2), if_pos hc2]
    · have hauth : c2 ≠ mk2.creator := by
        rw [hcr2]
        exact hc2
      simp only [resolveMarket, hg2, if_pos hauth, if_neg hc2]
  refine ⟨?_, ?_, herr, ?_⟩
  · unfold resolvedOf
    rw [hg2]
    simp [hres2]
  · unfold outcomeOf
    rw [hg2]
    simp [hoc2]
  · simp only [step, herr]

/-- Witness for C4 (amended): the creator resolves the concrete market to yes;
afterwards a non-creator's resolution attempt fails `Unauthorized`, the flag
stays `true` and the outcome stays yes. -/
theorem C4_monotone_resolution_witness :
    resolveMarket (run initState trBets) 100 0 true 7 = .ok (run initState trResolved) ∧
    (resolvedOf (run (run initState trResolved) []) 0 = some true ∧
      outcomeOf (run (run initState trResolved) []) 0 = some true ∧
      resolveMarket (run (run initState trResolved) []) 200 0 false 1
        = .error (if 1 = 7 then .InvalidState else .Unauthorized) ∧
      step (run (run initState trResolved) []) (200, .resolve 1 0 false)
        = run (run initState trResolved) []) :=
  ⟨rfl, C4_monotone_resolution (run initState trBets) 100 0 true 7
    (run initState trResolved) [] 200 false 1 rfl⟩

/-- C5: when `claimWinnings` succeeds on a resolved market with a non-zero
winning-side pool, the returned payout equals the bet's amount times the total
pool divided by the winning-side pool, with natural-number division (which
truncates toward zero on these non-negative operands); consequently the
payout never exceeds the participant's exact proportional share of the pool:
`payout * winningSideTotal ≤ amount * (totalYesAmount + totalNoAmount)`. -/
theorem C5_payout (s : EngineState) (m p : Nat) (mk : Market) (bet : Bet)
    (s1 : EngineState) (payout : Nat)
    (hm : s.markets[m]? = some mk)
    (hb : lookupBet s.bets m p = some bet)
    (hW : (if mk.outcome then mk.totalYesAmount else mk.totalNoAmount) ≠ 0)
    (h : claimWinnings s m p = (s1, .ok payout)) :
    payout = bet.amount * (mk.totalYesAmount + mk.totalNoAmount) /
      (if mk.outcome then mk.totalYesAmount else mk.totalNoAmount) ∧
    payout * (if mk.outcome then mk.totalYesAmount else mk.totalNoAmount) ≤
      bet.amount * (mk.totalYesAmount + mk.totalNoAmount) := by
  simp only [claimWinnings, hb, hm] at h
  by_cases h1 : mk.resolved = false
  · rw [if_pos h1] at h
    simp at h
  · rw [if_neg h1] at h
    by_cases h2 : bet.claimed = true
    · rw [if_pos h2] at h
      simp at h
    · rw [if_neg h2] at h
      by_cases h3 : bet.prediction ≠ mk.outcome
      · rw [if_pos h3] at h
        simp at h
      · rw [if_neg h3] at h
        by_cases h4 : bet.amount * (mk.totalYesAmount + mk.totalNoAmount) /
            (if mk.outcome then mk.totalYesAmount else mk.totalNoAmount) ≤ mk.balance
        · rw [if_pos h4] at h
          rw [Prod.mk.injEq] at h
          have hpay := (Except.ok.inj h.2).symm
          refine ⟨hpay, ?_⟩
          rw [hpay]
          exact Nat.div_mul_le_self _ _
        · rw [if_neg h4] at h
          simp at h

/-- Witness for C5: the concrete winner's payout is the whole two-bet pool,
`2 * MIN_BET = MIN_BET * (MIN_BET + MIN_BET) / MIN_BET`, and does not exceed
the proportional share. -/
theorem C5_payout_witness :
    ((run initState trResolved).markets[0]? = some mkResolvedC ∧
      lookupBet (run initState trResolved).bets 0 1 = some ⟨MIN_BET, true, false⟩ ∧
      (if mkResolvedC.outcome then mkResolvedC.totalYesAmount else mkResolvedC.totalNoAmount) ≠ 0 ∧
      claimWinnings (run initState trResolved) 0 1 = (run initState trClaimed, .ok (2 * MIN_BET))) ∧
    (2 * MIN_BET = MIN_BET * (mkResolvedC.totalYesAmount + mkResolvedC.totalNoAmount) /
        (if mkResolvedC.outcome then mkResolvedC.totalYesAmount else mkResolvedC.totalNoAmount) ∧
      2 * MIN_BET * (if mkResolvedC.outcome then mkResolvedC.totalYesAmount else mkResolvedC.totalNoAmount) ≤
        MIN_BET * (mkResolvedC.totalYesAmount + mkResolvedC.totalNoAmount)) :=
  ⟨⟨by decide, by decide, by decide, rfl⟩,
    C5_payout (run initState trResolved) 0 1 mkResolvedC ⟨MIN_BET, true, false⟩
      (run initState trClaimed) (2 * MIN_BET) (by decide) (by decide) (by decide) rfl⟩

/-- C7: a participant whose recorded prediction differs from the resolved
outcome can never complete a claim: `claimWinnings` does not succeed (it never
pays zero and succeeds), it leaves the state unchanged, and when the bet is
unclaimed it fails precisely with `NotAWinner`. -/
theorem C7_loser_cannot_claim (s : EngineState) (m p : Nat) (mk : Market) (bet : Bet)
    (hm : s.markets[m]? = some mk) (hb : lookupBet s.bets m p = some bet)
    (hres : mk.resolved = true) (hpred : bet.prediction ≠ mk.outcome) :
    (claimWinnings s m p).2.isOk = false ∧
    (claimWinnings s m p).1 = s ∧
    (bet.claimed = false → claimWinnings s m p = (s, .error .NotAWinner)) := by
  have hnot : ¬ mk.resolved = false := by
    rw [hres]
    exact fun hh => Bool.noConfusion hh
  by_cases h2 : bet.claimed = true
  · have hcl := claimWinnings_already s m p mk bet hm hb hres h2
    refine ⟨by rw [hcl]; rfl, by rw [hcl], fun hcf => ?_⟩
    rw [hcf] at h2
    cases h2
  · have hnaw : claimWinnings s m p = (s, .error .NotAWinner) := by
      simp only [claimWinnings, hb, hm, if_neg hnot, if_neg h2, if_pos hpred]
    exact ⟨by rw [hnaw]; rfl, by rw [hnaw], fun _ => hnaw⟩

/-- Witness for C7: participant 2 bet no, the concrete market resolved yes,
and the claim attempt fails with `NotAWinner` leaving the state unchanged. -/
theorem C7_loser_cannot_claim_witness :
    ((run initState trResolved).markets[0]? = some mkResolvedC ∧
      lookupBet (run initState trResolved).bets 0 2 = some ⟨MIN_BET, false, false⟩ ∧
      mkResolvedC.resolved = true ∧
      (Bet.prediction ⟨MIN_BET, false, false⟩ ≠ mkResolvedC.outcome)) ∧
    ((claimWinnings (run initState trResolved) 0 2).2.isOk = false ∧
      (claimWinnings (run initState trResolved) 0 2).1 = run initState trResolved ∧
      (Bet.claimed ⟨MIN_BET, false, false⟩ = false →
        claimWinnings (run initState trResolved) 0 2
          = (run initState trResolved, .error .NotAWinner))) :=
  ⟨⟨by decide, by decide, rfl, by decide⟩,
    C7_loser_cannot_claim (run initState trResolved) 0 2 mkResolvedC ⟨MIN_BET, false, false⟩
      (by decide) (by decide) rfl (by decide)⟩

/-- C8 counterexample: the claim as stated is false.  On the concrete open
market 0 (creator 7, endTime 100), `resolveMarket` at time 50 by caller 1
fails with `Unauthorized`, not `InvalidState`: authorization is checked before
the still-active check, exactly as the test suite expects for a non-creator
resolving an active market. -/
theorem C8_counterexample :
    (run initState trOpen).markets[0]? = some mkOpenC ∧
    50 < mkOpenC.endTime ∧
    resolveMarket (run initState trOpen) 50 0 true 1 = .error .Unauthorized ∧
    MarketError.Unauthorized ≠ MarketError.InvalidState :=
  ⟨by decide, by decide, rfl, by decide⟩

/-- C8 (amended): `placeBet` at or after the market's `endTime` always fails
with `InvalidState`, for any participant, prediction and amount; and
`resolveMarket` before `endTime` always fails for any caller and outcome —
with `InvalidState` when the caller is the creator and with `Unauthorized`
otherwise. -/
theorem C8_no_early_action (s : EngineState) (m : Nat) (mk : Market) (p : Nat)
    (pred : Bool) (amt : Nat) (now1 now2 : Nat) (oc : Bool) (c : Nat)
    (hm : s.markets[m]? = some mk)
    (h1 : mk.endTime ≤ now1) (h2 : now2 < mk.endTime) :
    placeBet s now1 m p pred amt = .error .InvalidState ∧
    resolveMarket s now2 m oc c
      = .error (if c = mk.creator then .InvalidState else .Unauthorized) := by
  constructor
  · simp only [placeBet, hm, if_pos (Or.inl h1)]
  · by_cases hc : c = mk.creator
    · simp only [resolveMarket, hm, if_neg (not_not.mpr hc), if_pos (Or.inl h2), if_pos hc]
    · simp only [resolveMarket, hm, if_pos hc, if_neg hc]

/-- Witness for C8 (amended): on the concrete open market (endTime 100),
a bet at time 100 fails `InvalidState` and the creator's resolution attempt
at time 50 fails `InvalidState`. -/
theorem C8_no_early_action_witness :
    ((run initState trOpen).markets[0]? = some mkOpenC ∧
      mkOpenC.endTime ≤ 100 ∧ 50 < mkOpenC.endTime) ∧
    (placeBet (run initState trOpen) 100 0 1 true MIN_BET = .error .InvalidState ∧
      resolveMarket (run initState trOpen) 50 0 true 7
        = .error (if 7 = mkOpenC.creator then .InvalidState else .Unauthorized)) :=
  ⟨⟨by decide, by decide, by decide⟩,
    C8_no_early_action (run initState trOpen) 0 mkOpenC 1 true MIN_BET 100 50 true 7
      (by decide) (by decide) (by decide)⟩

/-- C9: for every existing market and every caller other than the market's
creator, `resolveMarket` and `emergencyWithdraw` both fail with
`Unauthorized`, leaving the engine state (hence the market) unchanged. -/
theorem C9_authorization (s : EngineState) (now m : Nat) (mk : Market) (oc : Bool) (c : Nat)
    (hm : s.markets[m]? = some mk) (hc : c ≠ mk.creator) :
    resolveMarket s now m oc c = .error .Unauthorized ∧
    emergencyWithdraw s now m c = .error .Unauthorized ∧
    step s (now, .resolve c m oc) = s ∧
    step s (now, .withdraw c m) = s := by
  have hr : resolveMarket s now m oc c = .error .Unauthorized := by
    simp only [resolveMarket, hm, if_pos hc]
  have hw : emergencyWithdraw s now m c = .error .Unauthorized := by
    simp only [emergencyWithdraw, hm, if_pos hc]
  exact ⟨hr, hw, by simp only [step, hr], by simp only [step, hw]⟩

/-- Witness for C9: caller 1 is not the creator (7) of the concrete market,
and both operations fail `Unauthorized` without changing the state. -/
theorem C9_authorization_witness :
    ((run initState trOpen).markets[0]? = some mkOpenC ∧ (1 : Nat) ≠ mkOpenC.creator) ∧
    (resolveMarket (run initState trOpen) 5 0 true 1 = .error .Unauthorized ∧
      emergencyWithdraw (run initState trOpen) 5 0 1 = .error .Unauthorized ∧
      step (run initState trOpen) (5, .resolve 1 0 true) = run initState trOpen ∧
      step (run initState trOpen) (5, .withdraw 1 0) = run initState trOpen) :=
  ⟨⟨by decide, by decide⟩,
    C9_authorization (run initState trOpen) 5 0 mkOpenC true 1 (by decide) (by decide)⟩

/-- C10: `createMarket` fails with `InvalidArgument` when the question is
empty or the duration is zero, and `placeBet` on an open market fails with
`InvalidArgument` when the amount is below `MIN_BET` or above `MAX_BET`; in
each failing case the transaction leaves the engine state unchanged (no
market and no bet record is created). -/
theorem C10_invalid_arguments (s : EngineState) (nowc c : Nat) (q : String) (d : Nat)
    (nowb m p : Nat) (pred : Bool) (amt : Nat) (mk : Market)
    (hq : q = "" ∨ d = 0)
    (hm : s.markets[m]? = some mk) (hopen : nowb < mk.endTime) (hres : mk.resolved = false)
    (hamt : amt < MIN_BET ∨ MAX_BET < amt) :
    createMarket s nowc c q d = .error .InvalidArgument ∧
    placeBet s nowb m p pred amt = .error .InvalidArgument ∧
    step s (nowc, .create c q d) = s ∧
    step s (nowb, .bet p m pred amt) = s := by
  have hcreate : createMarket s nowc c q d = .error .InvalidArgument := by
    simp only [createMarket, if_pos hq]
  have hno : ¬(mk.endTime ≤ nowb ∨ mk.resolved = true) := by
    rintro (hh | hh)
    · omega
    · rw [hres] at hh
      cases hh
  have hbet : placeBet s nowb m p pred amt = .error .InvalidArgument := by
    simp only [placeBet, hm, if_neg hno, if_pos hamt]
  exact ⟨hcreate, hbet, by simp only [step, hcreate], by simp only [step, hbet]⟩

/-- Witness for C10: an empty question and a zero-amount bet on the open
concrete market both fail `InvalidArgument` and change nothing. -/
theorem C10_invalid_arguments_witness :
    (("" : String) = "" ∨ (5 : Nat) = 0) ∧
    ((run initState trOpen).markets[0]? = some mkOpenC ∧ 1 < mkOpenC.endTime ∧
      mkOpenC.resolved = false ∧ ((0 : Nat) < MIN_BET ∨ MAX_BET < 0)) ∧
    (createMarket (run initState trOpen) 0 3 "" 5 = .error .InvalidArgument ∧
      placeBet (run initState trOpen) 1 0 1 true 0 = .error .InvalidArgument ∧
      step (run initState trOpen) (0, .create 3 "" 5) = run initState trOpen ∧
      step (run initState trOpen) (1, .bet 1 0 true 0) = run initState trOpen) :=
  ⟨Or.inl rfl, ⟨by decide, by decide, rfl, Or.inl (by decide)⟩,
    C10_invalid_arguments (run initState trOpen) 0 3 "" 5 1 0 1 true 0 mkOpenC
      (Or.inl rfl) (by decide) (by decide) rfl (Or.inl (by decide))⟩
